import Mathlib

/-!
Verification of dit_file_encryptor (src/lib.rs): a CompressedFile handle
wrapping gzip compression around file reads/writes, plus a patch-at-offset
helper (write_string_file_gz).

Modelling choices:
- All operations act on a single path, so the filesystem state is the state
  of that one path: Disk := Option (List Nat), none meaning the file is
  absent and some raw meaning the file exists with raw on-disk bytes.
- The gzip codec (the external flate2 library) is modelled abstractly by a
  GzCodec structure whose laws are the facts about flate2 the code relies
  on: decoding a stream produced by one compressor session yields the
  compressed payload even when trailing bytes follow (the single-member
  GzDecoder stops at the end of the first member and ignores the rest),
  and the empty byte string is not a valid gzip stream (GzDecoder errors
  on empty input; the source guards metadata len > 0 for this reason).
  A concrete executable instance, lenCodec, witnesses the laws.
-/

namespace DitFileEncryptor

/-- Abstract model of the flate2 gzip codec used by the crate: compress is
one GzEncoder session over a payload; decompress is reading a GzDecoder to
end over raw bytes, returning none when the bytes are not a valid gzip
stream. The two laws are the behaviours of flate2 the source depends on. -/
structure GzCodec where
  compress : List Nat → List Nat
  decompress : List Nat → Option (List Nat)
  decompress_compress_append : ∀ b t, decompress (compress b ++ t) = some b
  decompress_nil : decompress [] = none

theorem GzCodec.decompress_compress (C : GzCodec) (b : List Nat) :
    C.decompress (C.compress b) = some b := by
  simpa using C.decompress_compress_append b []

theorem GzCodec.compress_ne_nil (C : GzCodec) (b : List Nat) :
    C.compress b ≠ [] := by
  intro h
  have := C.decompress_compress b
  rw [h, C.decompress_nil] at this
  exact Option.noConfusion this

/-- A concrete executable codec satisfying the GzCodec laws: a length
header followed by the payload; decoding takes the announced number of
bytes and ignores any trailing bytes, and fails on input too short. -/
def lenCodec : GzCodec where
  compress b := b.length :: b
  decompress s :=
    match s with
    | [] => none
    | n :: rest => if n ≤ rest.length then some (rest.take n) else none
  decompress_compress_append := by
    intro b t
    simp [List.take_left]
  decompress_nil := rfl

/-- I/O errors distinguished by the claims: the OS not-found error from
File open, and the corrupt-gzip error surfaced by GzDecoder reads. -/
inductive IOErr where
  | notFound
  | malformed
  deriving DecidableEq, Repr

/-- State of the single path the handle refers to: none = file absent,
some raw = file exists with raw bytes on disk. -/
abbrev Disk := Option (List Nat)

/-- CompressedFile::create_file: File::create truncates (or creates) the
file, leaving it existing and empty. OS permission errors are not
modelled, so creation always succeeds. -/
def create_file (_d : Disk) : Disk := some []

/-- CompressedFile::open_for_read: File::open fails with not-found when
the path is absent; otherwise it returns a GzDecoder over the raw bytes,
modelled as the raw bytes themselves (decompression is lazy). -/
def open_for_read (d : Disk) : Except IOErr (List Nat) :=
  match d with
  | none => .error .notFound
  | some raw => .ok raw

/-- Reading an open GzDecoder to end: decompression happens here, failing
on a malformed stream. -/
def read_to_end (C : GzCodec) (raw : List Nat) : Except IOErr (List Nat) :=
  match C.decompress raw with
  | some b => .ok b
  | none => .error .malformed

/-- CompressedFile::open_for_write: OpenOptions write+create opens the
file at position 0 WITHOUT truncating, creating it empty if absent.
Returns the disk state after the open. -/
def open_for_write (d : Disk) : Disk :=
  some (d.getD [])

/-- Writing new bytes into a file from position 0 without truncation:
bytes of the old content beyond the end of what is written remain. -/
def overwriteFrom (old new : List Nat) : List Nat :=
  new ++ old.drop new.length

/-- The write path of the crate: open_for_write, write all of b through
the GzEncoder, finalize the compressor. The encoder emits one compressed
stream starting at position 0 over whatever bytes were already there. -/
def writePath (C : GzCodec) (d : Disk) (b : List Nat) : Disk :=
  (open_for_write d).map (fun old => overwriteFrom old (C.compress b))

/-- CompressedFile::append_to_file: if the path exists, decompress it
fully (an absent path reads as empty content); concatenate the new text;
File::create truncates; one GzEncoder session writes the combined content
and finish flushes the footer before Ok is returned. -/
def append_to_file (C : GzCodec) (d : Disk) (text : List Nat) : Except IOErr Disk :=
  let existingE : Except IOErr (List Nat) :=
    match d with
    | none => .ok []
    | some raw => read_to_end C raw
  match existingE with
  | .error e => .error e
  | .ok existing => .ok (some (C.compress (existing ++ text)))

/-- The in-memory content edit of write_string_file_gz: resize the buffer
with zero fill when pos + len(value) exceeds its length, then
copy_from_slice value over the byte range from pos. -/
def patchContent (existing value : List Nat) (pos : Nat) : List Nat :=
  let resized :=
    if existing.length < pos + value.length then
      existing ++ List.replicate (pos + value.length - existing.length) 0
    else existing
  resized.take pos ++ value ++ resized.drop (pos + value.length)

/-- The read phase of write_string_file_gz: the existing content is
decompressed only when the file metadata reports a positive length;
a zero-length file reads as empty content. -/
def gzExisting (C : GzCodec) (raw : List Nat) : Except IOErr (List Nat) :=
  if 0 < raw.length then read_to_end C raw else .ok []

/-- write_string_file_gz on an open file whose on-disk bytes are raw:
read the existing content (empty file counts as empty content), patch it
in memory, seek to start and rewrite one compressed stream from position 0
without truncating, finishing the encoder before Ok. Returns the new
on-disk bytes. -/
def write_string_file_gz (C : GzCodec) (raw hash : List Nat) (pos : Nat) :
    Except IOErr (List Nat) :=
  match gzExisting C raw with
  | .error e => .error e
  | .ok existing => .ok (overwriteFrom raw (C.compress (patchContent existing hash pos)))

/-- The on-disk bytes form a valid gzip stream encoding some byte
sequence: reading a GzDecoder over them to end succeeds. -/
def GzipValid (C : GzCodec) (raw : List Nat) : Prop :=
  (C.decompress raw).isSome = true

instance (C : GzCodec) (raw : List Nat) : Decidable (GzipValid C raw) :=
  inferInstanceAs (Decidable ((C.decompress raw).isSome = true))

/-- Byte encoding of an ASCII string literal used by the repository's
patch test. -/
def strBytes (s : String) : List Nat := s.data.map Char.toNat

/-- C1: for every byte sequence b and every starting disk state, writing b
through the write path (open_for_write, write all of b, finalize the
compressor) and then reading through the read path (open_for_read, read to
end) yields exactly b as the decompressed content. -/
theorem write_then_read_roundtrip (C : GzCodec) (d : Disk) (b : List Nat) :
    (open_for_read (writePath C d b)).bind (read_to_end C) = .ok b := by
  simp [writePath, open_for_write, open_for_read, overwriteFrom, Except.bind,
    read_to_end, C.decompress_compress_append]

/-- C7: on an absent path, open_for_read fails with the not-found error,
while open_for_write succeeds and creates the file (empty) at the path. -/
theorem absent_read_fails_write_creates :
    open_for_read (none : Disk) = .error .notFound ∧
    open_for_write (none : Disk) = some [] := by
  exact ⟨rfl, rfl⟩

/-- C8: append_to_file on an absent path does not fail with not-found: it
treats the absent file as empty content, creating a file whose bytes are
one compressed stream over exactly the appended bytes, and reading it
back through the read path yields exactly those bytes. -/
theorem append_absent_creates (C : GzCodec) (text : List Nat) :
    append_to_file C none text = .ok (some (C.compress ([] ++ text))) ∧
    (open_for_read (some (C.compress ([] ++ text)))).bind (read_to_end C) =
      .ok text := by
  refine ⟨rfl, ?_⟩
  simp [open_for_read, Except.bind, read_to_end, C.decompress_compress]

/-- C9: on an existing file whose bytes are not a valid gzip stream,
open_for_read succeeds, returning the lazy reader; the malformed-stream
error surfaces only when the reader is read to end. -/
theorem malformed_surfaces_on_read (C : GzCodec) (raw : List Nat)
    (h : C.decompress raw = none) :
    open_for_read (some raw) = .ok raw ∧
    read_to_end C raw = .error .malformed := by
  exact ⟨rfl, by simp [read_to_end, h]⟩

/-- Witness for C9 at a concrete malformed input: the one-byte file [1]
is not a valid stream of lenCodec; opening succeeds and reading fails. -/
theorem malformed_surfaces_on_read_witness :
    lenCodec.decompress [1] = none ∧
    (open_for_read (some [1]) = .ok [1] ∧
      read_to_end lenCodec [1] = .error .malformed) :=
  ⟨by decide, malformed_surfaces_on_read lenCodec [1] (by decide)⟩

/-- C10: open_for_write opens an existing file without truncating it:
when the old on-disk bytes are longer than the newly written compressed
stream, the old bytes beyond the end of the new stream remain on disk
after the writer is finalized, and the file keeps its old length. -/
theorem open_for_write_keeps_tail (C : GzCodec) (old b : List Nat)
    (h : (C.compress b).length < old.length) :
    writePath C (some old) b =
      some (C.compress b ++ old.drop (C.compress b).length) ∧
    old.drop (C.compress b).length ≠ [] ∧
    (C.compress b ++ old.drop (C.compress b).length).length = old.length := by
  refine ⟨rfl, ?_, ?_⟩
  · intro hnil
    rw [List.drop_eq_nil_iff] at hnil
    omega
  · simp only [List.length_append, List.length_drop]
    omega

/-- Witness for C10: writing payload [3] (compressed stream [1, 3] of
length 2) over the five-byte file [9, 9, 9, 9, 9] leaves the last three
old bytes on disk. -/
theorem open_for_write_keeps_tail_witness :
    (lenCodec.compress [3]).length < ([9, 9, 9, 9, 9] : List Nat).length ∧
    (writePath lenCodec (some [9, 9, 9, 9, 9]) [3] =
        some (lenCodec.compress [3] ++
          ([9, 9, 9, 9, 9] : List Nat).drop (lenCodec.compress [3]).length) ∧
      ([9, 9, 9, 9, 9] : List Nat).drop (lenCodec.compress [3]).length ≠ [] ∧
      (lenCodec.compress [3] ++
          ([9, 9, 9, 9, 9] : List Nat).drop (lenCodec.compress [3]).length).length =
        ([9, 9, 9, 9, 9] : List Nat).length) :=
  ⟨by decide, open_for_write_keeps_tail lenCodec [9, 9, 9, 9, 9] [3] (by decide)⟩

/-- C2: starting from an absent path, append_to_file with b1 and then with
b2 produces a file whose bytes are one compressor session over b1 ++ b2 —
identical to the disk produced by a single write of b1 ++ b2 through the
write path — whose decompressed content is exactly b1 ++ b2; and whenever
the codec does not happen to map the concatenated payload to the
concatenation of the two streams, the stored bytes differ from the naive
concatenation of the two independently compressed streams. -/
theorem append_append_single_member (C : GzCodec) (b1 b2 : List Nat)
    (h : C.compress (b1 ++ b2) ≠ C.compress b1 ++ C.compress b2) :
    append_to_file C none b1 = .ok (some (C.compress b1)) ∧
    append_to_file C (some (C.compress b1)) b2 =
      .ok (some (C.compress (b1 ++ b2))) ∧
    writePath C none (b1 ++ b2) = some (C.compress (b1 ++ b2)) ∧
    read_to_end C (C.compress (b1 ++ b2)) = .ok (b1 ++ b2) ∧
    C.compress (b1 ++ b2) ≠ C.compress b1 ++ C.compress b2 := by
  refine ⟨?_, ?_, ?_, ?_, h⟩
  · simp [append_to_file]
  · simp [append_to_file, read_to_end, C.decompress_compress]
  · simp [writePath, open_for_write, overwriteFrom]
  · simp [read_to_end, C.decompress_compress]

/-- Witness for C2 at b1 = [0], b2 = [0] under lenCodec, where the single
stream [2, 0, 0] differs from the concatenation [1, 0, 1, 0]. -/
theorem append_append_single_member_witness :
    lenCodec.compress ([0] ++ [0]) ≠ lenCodec.compress [0] ++ lenCodec.compress [0] ∧
    (append_to_file lenCodec none [0] = .ok (some (lenCodec.compress [0])) ∧
      append_to_file lenCodec (some (lenCodec.compress [0])) [0] =
        .ok (some (lenCodec.compress ([0] ++ [0]))) ∧
      writePath lenCodec none ([0] ++ [0]) = some (lenCodec.compress ([0] ++ [0])) ∧
      read_to_end lenCodec (lenCodec.compress ([0] ++ [0])) = .ok ([0] ++ [0]) ∧
      lenCodec.compress ([0] ++ [0]) ≠ lenCodec.compress [0] ++ lenCodec.compress [0]) :=
  ⟨by decide, append_append_single_member lenCodec [0] [0] (by decide)⟩

theorem patchContent_extend (existing value : List Nat) (pos : Nat)
    (h : existing.length < pos) :
    patchContent existing value pos =
      existing ++ List.replicate (pos - existing.length) 0 ++ value := by
  have h1 : existing.length < pos + value.length := by omega
  simp only [patchContent, if_pos h1]
  have hlen : (existing ++
      List.replicate (pos + value.length - existing.length) 0).length =
      pos + value.length := by
    simp
    omega
  rw [List.drop_eq_nil_of_le (le_of_eq hlen), List.append_nil,
    List.take_append_eq_append_take, List.take_of_length_le (by omega),
    List.take_replicate]
  rw [min_eq_left (by omega :
    pos - existing.length ≤ pos + value.length - existing.length)]

theorem patchContent_inplace (existing value : List Nat) (pos : Nat)
    (h : pos + value.length ≤ existing.length) :
    patchContent existing value pos =
      existing.take pos ++ value ++ existing.drop (pos + value.length) := by
  simp only [patchContent, if_neg (by omega : ¬ existing.length < pos + value.length)]

theorem take_append_of_length_eq {A : List Nat} (B : List Nat) (n : Nat)
    (h : A.length = n) : (A ++ B).take n = A := by
  subst h
  exact List.take_left A B

theorem drop_append_of_length_eq {A : List Nat} (B : List Nat) (n : Nat)
    (h : A.length = n) : (A ++ B).drop n = B := by
  subst h
  exact List.drop_left A B

/-- The stream written by one compressor session decodes to its payload
even with trailing bytes on disk: the reader stops at the member end. -/
theorem GzipValid_compress_append (C : GzCodec) (b t : List Nat) :
    GzipValid C (C.compress b ++ t) := by
  simp [GzipValid, C.decompress_compress_append]

/-- C3: when the existing decompressed content read by write_string_file_gz
has length L strictly below the position, the patch succeeds (no error),
and the new decompressed content is the old content, then zero bytes up to
the position, then the value: its length is pos + len(value), the bytes
from pos onward are exactly the value, and the bytes from L up to pos are
all zero. -/
theorem write_string_file_gz_extends (C : GzCodec) (raw existing value : List Nat)
    (pos : Nat) (hex : gzExisting C raw = .ok existing)
    (hlt : existing.length < pos) :
    write_string_file_gz C raw value pos =
      .ok (overwriteFrom raw (C.compress
        (existing ++ List.replicate (pos - existing.length) 0 ++ value))) ∧
    read_to_end C (overwriteFrom raw (C.compress
        (existing ++ List.replicate (pos - existing.length) 0 ++ value))) =
      .ok (existing ++ List.replicate (pos - existing.length) 0 ++ value) ∧
    (existing ++ List.replicate (pos - existing.length) 0 ++ value).length =
      pos + value.length ∧
    (existing ++ List.replicate (pos - existing.length) 0 ++ value).drop pos =
      value ∧
    ((existing ++ List.replicate (pos - existing.length) 0 ++ value).take pos).drop
        existing.length = List.replicate (pos - existing.length) 0 := by
  have hlen : (existing ++ List.replicate (pos - existing.length) 0).length = pos := by
    simp
    omega
  refine ⟨?_, ?_, ?_, ?_, ?_⟩
  · simp [write_string_file_gz, hex, patchContent_extend existing value pos hlt]
  · simp [overwriteFrom, read_to_end, C.decompress_compress_append]
  · simp
    omega
  · exact drop_append_of_length_eq value pos hlen
  · rw [take_append_of_length_eq value pos hlen,
      drop_append_of_length_eq (List.replicate (pos - existing.length) 0)
        existing.length rfl]

/-- Witness for C3: the two-byte content [1, 2] (stored as lenCodec stream
[2, 1, 2]) patched with [7, 8] at position 4 gives content
[1, 2, 0, 0, 7, 8], stored as the stream [6, 1, 2, 0, 0, 7, 8]. -/
theorem write_string_file_gz_extends_witness :
    gzExisting lenCodec [2, 1, 2] = .ok [1, 2] ∧
    ([1, 2] : List Nat).length < 4 ∧
    write_string_file_gz lenCodec [2, 1, 2] [7, 8] 4 =
      .ok [6, 1, 2, 0, 0, 7, 8] :=
  ⟨rfl, by decide,
    (write_string_file_gz_extends lenCodec [2, 1, 2] [1, 2] [7, 8] 4 rfl
      (by decide)).1⟩

/-- C4: when pos + len(value) fits inside the existing decompressed
content, write_string_file_gz succeeds and overwrites exactly the byte
range from pos to pos + len(value) with the value: the new decompressed
content keeps the old length, agrees with the old content before pos and
from pos + len(value) onward, and carries the value in between. -/
theorem write_string_file_gz_frame (C : GzCodec) (raw existing value : List Nat)
    (pos : Nat) (hex : gzExisting C raw = .ok existing)
    (hle : pos + value.length ≤ existing.length) :
    write_string_file_gz C raw value pos =
      .ok (overwriteFrom raw (C.compress
        (existing.take pos ++ value ++ existing.drop (pos + value.length)))) ∧
    read_to_end C (overwriteFrom raw (C.compress
        (existing.take pos ++ value ++ existing.drop (pos + value.length)))) =
      .ok (existing.take pos ++ value ++ existing.drop (pos + value.length)) ∧
    (existing.take pos ++ value ++ existing.drop (pos + value.length)).length =
      existing.length ∧
    (existing.take pos ++ value ++ existing.drop (pos + value.length)).take pos =
      existing.take pos ∧
    (existing.take pos ++ value ++ existing.drop (pos + value.length)).drop
        (pos + value.length) = existing.drop (pos + value.length) ∧
    ((existing.take pos ++ value ++ existing.drop (pos + value.length)).drop
        pos).take value.length = value := by
  have hPlen : (existing.take pos).length = pos := by
    rw [List.length_take, min_eq_left (by omega : pos ≤ existing.length)]
  have hPVlen : (existing.take pos ++ value).length = pos + value.length := by
    rw [List.length_append, hPlen]
  refine ⟨?_, ?_, ?_, ?_, ?_, ?_⟩
  · simp [write_string_file_gz, hex, patchContent_inplace existing value pos hle]
  · simp [overwriteFrom, read_to_end, C.decompress_compress_append]
  · simp only [List.length_append, List.length_drop, hPlen]
    omega
  · rw [List.append_assoc,
      take_append_of_length_eq (value ++ existing.drop (pos + value.length)) pos hPlen]
  · exact drop_append_of_length_eq (existing.drop (pos + value.length))
      (pos + value.length) hPVlen
  · rw [List.append_assoc,
      drop_append_of_length_eq (value ++ existing.drop (pos + value.length)) pos hPlen,
      take_append_of_length_eq (existing.drop (pos + value.length)) value.length rfl]

/-- ASCII bytes of the initial content of the repository's patch test. -/
def helloContent : List Nat := strBytes "Hello world, this is some initial content!"

/-- ASCII bytes of the patch value of the repository's patch test. -/
def hashValue : List Nat := strBytes "new_hash_value"

/-- Witness for C4 at the repository's own test case: the 43-byte content,
patched with the 14-byte value at offset 6, keeps its length, with only
bytes 6 to 20 replaced. -/
theorem write_string_file_gz_frame_witness :
    gzExisting lenCodec (lenCodec.compress helloContent) = .ok helloContent ∧
    6 + hashValue.length ≤ helloContent.length ∧
    ((helloContent.take 6 ++ hashValue ++ helloContent.drop (6 + hashValue.length)).length =
        helloContent.length ∧
      (helloContent.take 6 ++ hashValue ++ helloContent.drop (6 + hashValue.length)).take 6 =
        helloContent.take 6 ∧
      write_string_file_gz lenCodec (lenCodec.compress helloContent) hashValue 6 =
        .ok (overwriteFrom (lenCodec.compress helloContent) (lenCodec.compress
          (helloContent.take 6 ++ hashValue ++ helloContent.drop (6 + hashValue.length))))) :=
  ⟨rfl, by decide,
    (write_string_file_gz_frame lenCodec (lenCodec.compress helloContent)
        helloContent hashValue 6 rfl (by decide)).2.2.1,
    (write_string_file_gz_frame lenCodec (lenCodec.compress helloContent)
        helloContent hashValue 6 rfl (by decide)).2.2.2.1,
    (write_string_file_gz_frame lenCodec (lenCodec.compress helloContent)
        helloContent hashValue 6 rfl (by decide)).1⟩

/-- C5 counterexample: create_file is a successful operation after which
the file exists, yet its bytes (the empty byte string) are not a valid
gzip stream encoding any byte sequence. -/
theorem create_file_leaves_invalid_empty :
    create_file (some [1, 2, 3]) = some [] ∧ ¬ GzipValid lenCodec [] := by
  exact ⟨rfl, by decide⟩

/-- C5 amended: after every successful operation that finalizes a
compressor — append_to_file, write_string_file_gz, and the write path's
finalize — the on-disk bytes start with a complete gzip stream and decode
to some byte sequence (the footer is flushed before success); create_file
and a bare open_for_write instead leave an empty file, which is not a
valid gzip stream. -/
theorem finalized_streams_valid (C : GzCodec) :
    (∀ d text d2, append_to_file C d text = .ok d2 →
      ∃ raw, d2 = some raw ∧ GzipValid C raw) ∧
    (∀ raw hash pos out, write_string_file_gz C raw hash pos = .ok out →
      GzipValid C out) ∧
    (∀ d b raw, writePath C d b = some raw → GzipValid C raw) := by
  refine ⟨?_, ?_, ?_⟩
  · intro d text d2 h
    cases d with
    | none =>
      simp only [append_to_file, Except.ok.injEq] at h
      refine ⟨C.compress ([] ++ text), h.symm, ?_⟩
      simpa using GzipValid_compress_append C ([] ++ text) []
    | some raw0 =>
      cases hr : C.decompress raw0 with
      | none => simp [append_to_file, read_to_end, hr] at h
      | some ex =>
        simp only [append_to_file, read_to_end, hr, Except.ok.injEq] at h
        refine ⟨C.compress (ex ++ text), h.symm, ?_⟩
        simpa using GzipValid_compress_append C (ex ++ text) []
  · intro raw hash pos out h
    cases hg : gzExisting C raw with
    | error e => simp [write_string_file_gz, hg] at h
    | ok ex =>
      simp only [write_string_file_gz, hg, Except.ok.injEq] at h
      rw [← h]
      exact GzipValid_compress_append C (patchContent ex hash pos)
        (raw.drop (C.compress (patchContent ex hash pos)).length)
  · intro d b raw h
    simp only [writePath, open_for_write, Option.map_some', Option.some.injEq] at h
    rw [← h]
    exact GzipValid_compress_append C b ((d.getD []).drop (C.compress b).length)

/-- Witness for C5 amended: appending [3] to an absent file leaves the
valid stream produced by one lenCodec compressor session. -/
theorem finalized_streams_valid_witness :
    GzipValid lenCodec (lenCodec.compress ([] ++ [3])) := by
  obtain ⟨raw, hraw, hv⟩ :=
    (finalized_streams_valid lenCodec).1 none [3]
      (some (lenCodec.compress ([] ++ [3]))) rfl
  rw [Option.some.inj hraw]
  exact hv

/-- C6 counterexample: after create_file on an existing non-empty path,
reading through the read path does not yield empty content: open succeeds
but reading to end fails, because the truncated file is empty and the
empty byte string is not a valid gzip stream. -/
theorem create_then_read_not_empty :
    (open_for_read (create_file (some (lenCodec.compress [1, 2])))).bind
      (read_to_end lenCodec) ≠ .ok ([] : List Nat) := by
  intro h
  exact Except.noConfusion h

/-- C6 amended: create_file on any prior state truncates the file to zero
bytes immediately; a subsequent open_for_read succeeds, but reading the
stream to end returns the malformed-stream error rather than empty
content, since an empty file is not a valid gzip stream. -/
theorem create_then_read_errors (C : GzCodec) (d : Disk) :
    create_file d = some [] ∧
    (open_for_read (create_file d)).bind (read_to_end C) =
      .error .malformed := by
  refine ⟨rfl, ?_⟩
  simp [create_file, open_for_read, Except.bind, read_to_end, C.decompress_nil]

end DitFileEncryptor
